import Mathlib

/-!
Verification of the ApplyMate field-detection / field-matching / field-filling
pipeline (src/core/nlp/field_matcher.py, src/core/browser/form_filler.py,
src/core/browser/page_analyzer.py, src/core/browser/playwright_manager.py,
src/utils/validators.py, src/config/settings.py) against its specification.

Scores are modelled as rationals; Python strings are Lean strings.  External
library behaviour (the spaCy tokenizer and PhraseMatcher, Playwright page
calls, urllib's urlparse) is modelled explicitly where a definition says so;
everything else is a direct translation of the repository's Python source.
-/

namespace ApplyMate

attribute [local semireducible] Rat.mul Rat.inv Rat.add

/-- Field descriptor (class FormField in src/core/browser/page_analyzer.py).
Optional string attributes that are None in Python are modelled as "". -/
structure FormField where
  elementType : String
  fieldType : String
  name : String
  id : String
  label : String
  placeholder : String
  required : Bool
  selector : String
  options : List String
deriving DecidableEq

/-- Python regex class \w (word character), ASCII fragment. -/
def isWordChar (c : Char) : Bool := c.isAlphanum || c = '_'

/-- Python regex class \s (whitespace). -/
def isSpaceChar (c : Char) : Bool := c = ' ' || c = '\t' || c = '\n' || c = '\r'

/-- The first re.sub of _extract_field_text: every character that is neither
a word character nor whitespace is replaced by a space. -/
def stripPunct (s : String) : String :=
  ⟨s.data.map (fun c => if isWordChar c || isSpaceChar c then c else ' ')⟩

/-- str.lower, character by character. -/
def lowerStr (s : String) : String := ⟨s.data.map Char.toLower⟩

/-- Split a character list at every separator character; chunks may be
empty (kept so that callers can filter them out, as str.split does). -/
def splitChunks (p : Char → Bool) : List Char → List (List Char)
  | [] => [[]]
  | c :: cs =>
    match splitChunks p cs with
    | [] => [[c]]
    | w :: ws => if p c then [] :: w :: ws else (c :: w) :: ws

/-- The maximal separator-free chunks of a string (str.split semantics). -/
def wordsOf (p : Char → Bool) (s : String) : List String :=
  ((splitChunks p s.data).filter (· ≠ [])).map (fun w => ⟨w⟩)

/-- Join chunks with single spaces. -/
def joinSpaces : List (List Char) → List Char
  | [] => []
  | [w] => w
  | w :: ws => w ++ ' ' :: joinSpaces ws

/-- The second re.sub of _extract_field_text followed by strip: collapse
whitespace runs to single spaces and strip the ends. -/
def collapseWs (s : String) : String :=
  ⟨joinSpaces ((splitChunks isSpaceChar s.data).filter (· ≠ []))⟩

/-- Python str.join with a single-space separator. -/
def joinWithSpace (l : List String) : String :=
  ⟨joinSpaces (l.map (·.data))⟩

/-- FieldMatcher._extract_field_text: join the truthy components of
[label, placeholder, name, id] with spaces, lowercase, strip punctuation
to whitespace, collapse whitespace and strip. -/
def extractFieldText (f : FormField) : String :=
  collapseWs (stripPunct
    (lowerStr (joinWithSpace (([f.label, f.placeholder, f.name, f.id]).filter (· ≠ "")))))

/-- FieldMatcher.FIELD_PATTERNS: the static vocabulary table, in declaration
order, transcribed verbatim from src/core/nlp/field_matcher.py. -/
def FIELD_PATTERNS : List (String × List String) :=
  [("first_name",
    ["first name", "firstname", "given name", "fname", "forename",
     "first", "name first", "first_name"]),
   ("last_name",
    ["last name", "lastname", "surname", "family name", "lname",
     "last", "name last", "last_name"]),
   ("email",
    ["email", "e-mail", "email address", "e-mail address",
     "contact email", "your email", "mail"]),
   ("phone",
    ["phone", "telephone", "phone number", "tel", "mobile",
     "cell", "contact number", "mobile number", "cell phone"]),
   ("address_line1",
    ["address", "street address", "address line 1", "address 1",
     "street", "address line1", "street 1"]),
   ("address_line2",
    ["address line 2", "address 2", "apartment", "apt", "suite",
     "unit", "address line2", "apt/suite"]),
   ("city", ["city", "town", "municipality"]),
   ("state", ["state", "province", "region", "state/province"]),
   ("zip_code",
    ["zip", "zip code", "postal code", "postcode", "postal",
     "zipcode", "zip/postal"]),
   ("country", ["country", "nation"]),
   ("linkedin_url",
    ["linkedin", "linkedin url", "linkedin profile", "linkedin.com"]),
   ("github_url",
    ["github", "github url", "github profile", "github.com",
     "github username"]),
   ("portfolio_url",
    ["portfolio", "website", "personal website", "portfolio url",
     "personal site", "web site"]),
   ("current_company",
    ["current company", "employer", "company", "current employer",
     "organization"]),
   ("current_title",
    ["job title", "title", "current title", "position",
     "current position", "role", "current role"]),
   ("years_of_experience",
    ["years of experience", "experience", "years experience",
     "work experience", "total experience"]),
   ("education_level",
    ["education level", "degree", "highest degree", "education",
     "level of education", "qualification"]),
   ("university",
    ["university", "college", "school", "institution",
     "educational institution"]),
   ("major",
    ["major", "field of study", "degree major", "course",
     "specialization", "subject"]),
   ("graduation_year",
    ["graduation year", "year of graduation", "grad year",
     "graduated", "completion year"]),
   ("gpa", ["gpa", "grade point average", "cgpa", "grades"])]

/-- Tokenization of an already-normalized text: whitespace splitting.
Models the spaCy tokenizer on the punctuation-free, single-spaced strings
produced by extractFieldText (spec section 4.3: tokenize the normalized text
and the vocabulary surface forms identically). -/
def tokenize (s : String) : List String :=
  wordsOf (· = ' ') s

/-- Python's min on two rationals, kept kernel-computable. -/
def minQ (a b : ℚ) : ℚ := if a ≤ b then a else b

/-- Contiguous-sublist test: does phrase occur as a contiguous segment? -/
def containsSeg {α : Type} [DecidableEq α] (phrase : List α) : List α → Bool
  | [] => phrase.isEmpty
  | a :: l => phrase.isPrefixOf (a :: l) || containsSeg phrase l

/-- Python substring test: pattern in text. -/
def strContains (text pat : String) : Bool := containsSeg pat.data text.data

/-- First phrase of an entry's surface-form list matching the document
tokens as a contiguous token subsequence; returns its token count
(the spaCy match span end - start). -/
def findPhraseTokens (docToks : List String) : List String → Option Nat
  | [] => none
  | p :: ps =>
    if !(tokenize p).isEmpty && containsSeg (tokenize p) docToks then
      some (tokenize p).length
    else findPhraseTokens docToks ps

/-- Scan of the vocabulary for the first matching entry.  Modelled from the
spec: the spaCy PhraseMatcher is an external dependency; per spec section 4.3
a vocabulary entry matches when one of its surface-form phrases appears as a
contiguous token subsequence of the normalized text, and matches are searched
in vocabulary-declaration order. -/
def firstVocabMatch (docToks : List String) :
    List (String × List String) → Option (String × Nat)
  | [] => none
  | (fld, ps) :: rest =>
    match findPhraseTokens docToks ps with
    | some n => some (fld, n)
    | none => firstVocabMatch docToks rest

/-- FieldMatcher._nlp_match: take the first match and score it by
confidence = min(match_length / total_length, 1.0) * 0.95. -/
def nlpMatch (fieldText : String) : Option String × ℚ :=
  let docToks := tokenize fieldText
  match firstVocabMatch docToks FIELD_PATTERNS with
  | none => (none, 0)
  | some (fld, n) =>
    (some fld, minQ (mkRat n docToks.length) 1 * mkRat 95 100)

/-- One step of FieldMatcher._pattern_match's inner loop: for a matching
pattern, score = min(len(pattern) / len(field_text), 0.9) and the running
best is replaced only on a strictly greater score. -/
def patternStep (fieldText : String) (acc : Option String × ℚ)
    (entry : String × List String) : Option String × ℚ :=
  entry.2.foldl
    (fun a pat =>
      if strContains fieldText pat then
        let score := minQ (mkRat pat.length fieldText.length) (mkRat 9 10)
        if score > a.2 then (some entry.1, score) else a
      else a)
    acc

/-- FieldMatcher._pattern_match: substring fallback over the vocabulary. -/
def patternMatch (fieldText : String) : Option String × ℚ :=
  FIELD_PATTERNS.foldl (patternStep fieldText) (none, 0)

/-- Settings.MIN_FIELD_MATCH_SCORE (src/config/settings.py), default 0.6. -/
def MIN_FIELD_MATCH_SCORE : ℚ := mkRat 6 10

/-- FieldMatcher.match_field, parametrized by the two strategies so that
their non-invocation on empty text is expressible.  nlpLoaded models
whether self.nlp is set (semantic engine loaded). -/
def matchFieldWith (sem pat : String → Option String × ℚ)
    (nlpLoaded : Bool) (f : FormField) : Option String × ℚ :=
  let fieldText := extractFieldText f
  if fieldText = "" then (none, 0)
  else if nlpLoaded then
    match sem fieldText with
    | (some pf, score) =>
      if MIN_FIELD_MATCH_SCORE ≤ score then (some pf, score) else pat fieldText
    | (none, _) => pat fieldText
  else pat fieldText

/-- FieldMatcher.match_field with the real strategies. -/
def matchField (nlpLoaded : Bool) (f : FormField) : Option String × ℚ :=
  matchFieldWith nlpMatch patternMatch nlpLoaded f

/-- Python dict assignment d[k] = v on an insertion-ordered dictionary,
modelled as an association list: an existing key keeps its position and
gets the new value, a new key is appended. -/
def dictInsert {κ β : Type} [DecidableEq κ] (m : List (κ × β)) (k : κ) (v : β) :
    List (κ × β) :=
  if m.any (fun p => p.1 = k) then m.map (fun p => if p.1 = k then (k, v) else p)
  else m ++ [(k, v)]

/-- FieldMatcher.match_fields: builds the dictionary mapping each FormField
(dict keys are FormField objects) to its match_field result.  Distinct
Python objects are modelled by distinct FormField values. -/
def matchFields (nlpLoaded : Bool) (fields : List FormField) :
    List (FormField × (Option String × ℚ)) :=
  fields.foldl (fun m f => dictInsert m f (matchField nlpLoaded f)) []

/-! ### Form filler (src/core/browser/form_filler.py) -/

/-- A Python value as it reaches FormFiller.fill_field: either None or a
string (profile values flowing through get_profile_value).  vNone and the
empty string are the falsy cases relevant here. -/
inductive PyVal where
  | vNone : PyVal
  | vStr : String → PyVal
deriving DecidableEq

/-- Python truthiness test `not value` for the values above. -/
def PyVal.falsy : PyVal → Bool
  | .vNone => true
  | .vStr s => s = ""

/-- str(value). -/
def PyVal.toText : PyVal → String
  | .vNone => "None"
  | .vStr s => s

/-- One observable Playwright page interaction performed by the filler. -/
inductive PageAction where
  | waitFor : String → PageAction
  | clear : String → PageAction
  | typeText : String → String → PageAction
  | fillText : String → String → PageAction
  | selectByValue : String → String → PageAction
  | selectByLabel : String → String → PageAction
deriving DecidableEq

/-- Outcome oracle for the live page: which interactions succeed.  Models
the Playwright calls (external library): each field tells whether the
corresponding page call succeeds or raises. -/
structure PageModel where
  waitVisible : String → Bool
  fillOk : String → Bool
  typeOk : String → Bool
  selValueOk : String → String → Bool
  selLabelOk : String → String → Bool

/-- FormFiller._fill_input: wait for visibility, clear when force, then
per-character typing.  Returns the success flag and the interactions
attempted (a failing call is still an attempted interaction). -/
def fillInput (pg : PageModel) (sel : String) (value : String) (force : Bool) :
    Bool × List PageAction :=
  if pg.waitVisible sel then
    if force then
      if pg.fillOk sel then
        if pg.typeOk sel then
          (true, [.waitFor sel, .clear sel, .typeText sel value])
        else (false, [.waitFor sel, .clear sel, .typeText sel value])
      else (false, [.waitFor sel, .clear sel])
    else
      if pg.typeOk sel then (true, [.waitFor sel, .typeText sel value])
      else (false, [.waitFor sel, .typeText sel value])
  else (false, [.waitFor sel])

/-- FormFiller._fill_textarea: wait, clear when force, bulk fill. -/
def fillTextarea (pg : PageModel) (sel : String) (value : String) (force : Bool) :
    Bool × List PageAction :=
  if pg.waitVisible sel then
    if force then
      if pg.fillOk sel then
        if pg.fillOk sel then
          (true, [.waitFor sel, .clear sel, .fillText sel value])
        else (false, [.waitFor sel, .clear sel, .fillText sel value])
      else (false, [.waitFor sel, .clear sel])
    else
      if pg.fillOk sel then (true, [.waitFor sel, .fillText sel value])
      else (false, [.waitFor sel, .fillText sel value])
  else (false, [.waitFor sel])

/-- FormFiller._fill_select: wait, select by value, retry by label. -/
def fillSelect (pg : PageModel) (sel : String) (value : String) :
    Bool × List PageAction :=
  if pg.waitVisible sel then
    if pg.selValueOk sel value then (true, [.waitFor sel, .selectByValue sel value])
    else if pg.selLabelOk sel value then
      (true, [.waitFor sel, .selectByValue sel value, .selectByLabel sel value])
    else (false, [.waitFor sel, .selectByValue sel value, .selectByLabel sel value])
  else (false, [.waitFor sel])

/-- FormFiller.fill_field: falsy values short-circuit to failure before any
page interaction; otherwise dispatch on element_type. -/
def fillField (pg : PageModel) (f : FormField) (value : PyVal) (force : Bool) :
    Bool × List PageAction :=
  if value.falsy then (false, [])
  else if f.elementType = "input" then fillInput pg f.selector value.toText force
  else if f.elementType = "textarea" then fillTextarea pg f.selector value.toText force
  else if f.elementType = "select" then fillSelect pg f.selector value.toText
  else (false, [])

/-- FormFiller.fill_form: fills each (field, value) pair in order and
records success per field.selector in a dict (later pairs overwrite
earlier entries sharing the same selector string). -/
def fillForm (pg : PageModel) (mappings : List (FormField × PyVal)) (force : Bool) :
    List (String × Bool) :=
  mappings.foldl
    (fun res p => dictInsert res p.1.selector (fillField pg p.1 p.2 force).1) []

/-! ### Navigation (src/core/browser/playwright_manager.py) and URL
validation (src/utils/validators.py) -/

/-- An observable navigation step performed by PlaywrightManager.navigate_to. -/
inductive NavAction where
  | goto : String → NavAction
  | waitNetworkIdle : NavAction
deriving DecidableEq

/-- PlaywrightManager.navigate_to: page.goto(url) then wait for network
quiescence; any raised error is caught and reported as False.  gotoOk and
idleOk model whether the two external Playwright calls succeed.  The source
performs no URL validation of any kind. -/
def navigate_to (gotoOk idleOk : Bool) (url : String) : Bool × List NavAction :=
  if gotoOk then
    if idleOk then (true, [.goto url, .waitNetworkIdle])
    else (false, [.goto url, .waitNetworkIdle])
  else (false, [.goto url])

/-- Scheme characters accepted by urllib.parse (letters, digits, +, -, .). -/
def isSchemeChar (c : Char) : Bool := c.isAlphanum || c = '+' || c = '-' || c = '.'

/-- Split off everything before the first colon. -/
def splitColon : List Char → Option (List Char × List Char)
  | [] => none
  | c :: cs =>
    if c = ':' then some ([], cs)
    else match splitColon cs with
      | none => none
      | some (before, after) => some (c :: before, after)

/-- The (scheme, remainder) split of urllib.parse.urlparse: a scheme is
recognized when a colon is preceded by a non-empty run of scheme characters
starting with a letter; otherwise the scheme is empty and the whole input
is the remainder.  Modelled from urllib's documented behaviour (external
library), only as far as is_valid_url consumes it. -/
def urlSchemeSplit (url : List Char) : List Char × List Char :=
  match splitColon url with
  | some (before, after) =>
    match before with
    | [] => ([], url)
    | c :: cs =>
      if c.isAlpha && (c :: cs).all isSchemeChar then (c :: cs, after)
      else ([], url)
  | none => ([], url)

/-- The netloc of the remainder: non-empty only after a leading //, up to
the next /, ?, or #. -/
def urlNetloc : List Char → List Char
  | '/' :: '/' :: rest => rest.takeWhile (fun c => !(c = '/' || c = '?' || c = '#'))
  | _ => []

/-- validators.is_valid_url: empty strings are invalid, otherwise the
urlparse result must have both a scheme and a netloc. -/
def is_valid_url (url : String) : Bool :=
  if url = "" then false
  else
    let parts := urlSchemeSplit url.data
    !parts.1.isEmpty && !(urlNetloc parts.2).isEmpty

/-! ### Field detection (src/core/browser/page_analyzer.py) -/

/-- The attributes the detector reads off one DOM element. -/
structure RawElem where
  id : String
  name : String
  label : String
  placeholder : String
  fieldType : String
  required : Bool
  options : List String
deriving DecidableEq

/-- The selector priority chain shared by _detect_input_fields,
_detect_textarea_fields and _detect_select_fields: #id when an id is
present, else tag[name="name"] when a name is present, else the positional
tag:nth-of-type(idx+1) with the 0-based enumeration index. -/
def mkSelector (tag : String) (elemId elemName : String) (idx : Nat) : String :=
  if elemId ≠ "" then "#" ++ elemId
  else if elemName ≠ "" then tag ++ "[name=\"" ++ elemName ++ "\"]"
  else tag ++ ":nth-of-type(" ++ toString (idx + 1) ++ ")"

/-- The FormField built for one input element at enumeration index idx. -/
def mkInputField (e : RawElem) (idx : Nat) : FormField :=
  { elementType := "input", fieldType := e.fieldType, name := e.name, id := e.id,
    label := e.label, placeholder := e.placeholder, required := e.required,
    selector := mkSelector "input" e.id e.name idx, options := [] }

/-- The FormField built for one textarea element at enumeration index idx. -/
def mkTextareaField (e : RawElem) (idx : Nat) : FormField :=
  { elementType := "textarea", fieldType := "textarea", name := e.name, id := e.id,
    label := e.label, placeholder := e.placeholder, required := e.required,
    selector := mkSelector "textarea" e.id e.name idx, options := [] }

/-- The FormField built for one select element at enumeration index idx. -/
def mkSelectField (e : RawElem) (idx : Nat) : FormField :=
  { elementType := "select", fieldType := "select", name := e.name, id := e.id,
    label := e.label, placeholder := "", required := e.required,
    selector := mkSelector "select" e.id e.name idx, options := e.options }

/-- The enumerate loop of a detection pass, threading the element index. -/
def detectAux (mk : RawElem → Nat → FormField) (idx : Nat) :
    List RawElem → List FormField
  | [] => []
  | e :: es => mk e idx :: detectAux mk (idx + 1) es

/-- PageAnalyzer._detect_input_fields over the queried input elements. -/
def detectInputFields (es : List RawElem) : List FormField :=
  detectAux mkInputField 0 es

/-- PageAnalyzer._detect_textarea_fields over the queried textareas. -/
def detectTextareaFields (es : List RawElem) : List FormField :=
  detectAux mkTextareaField 0 es

/-- PageAnalyzer._detect_select_fields over the queried selects. -/
def detectSelectFields (es : List RawElem) : List FormField :=
  detectAux mkSelectField 0 es

/-! ### Matcher lifecycle (FieldMatcher.initialize / match_field state) -/

/-- The mutable state of the FieldMatcher singleton: whether _initialized
was set, whether self.nlp is loaded, and how many times the spaCy engine
load has been attempted. -/
structure MatcherState where
  isInit : Bool
  nlpLoaded : Bool
  loadAttempts : Nat
deriving DecidableEq

/-- FieldMatcher.initialize: returns immediately when _initialized; else
attempts the engine load (loadSucceeds models whether spacy.load raises).
Only a successful attempt sets _initialized; a failed attempt only logs. -/
def matcherInit (loadSucceeds : Bool) (s : MatcherState) : MatcherState :=
  if s.isInit then s
  else if loadSucceeds then
    { isInit := true, nlpLoaded := true, loadAttempts := s.loadAttempts + 1 }
  else
    { isInit := s.isInit, nlpLoaded := s.nlpLoaded,
      loadAttempts := s.loadAttempts + 1 }

/-- FieldMatcher.match_field as a state transition: when not _initialized it
first calls initialize, then matches with the resulting engine state. -/
def matchFieldStep (loadSucceeds : Bool) (s : MatcherState) (f : FormField) :
    MatcherState × (Option String × ℚ) :=
  let s' := if s.isInit then s else matcherInit loadSucceeds s
  (s', matchField s'.nlpLoaded f)

example : tokenize "email address" = ["email", "address"] := by decide
example : (nlpMatch "email").1 = some "email" := by decide
example : (nlpMatch "email").2 = mkRat 19 20 := by decide
example : (patternMatch "email").2 = mkRat 9 10 := by decide
example : (patternMatch "email").1 = some "email" := by decide
example : extractFieldText
    { elementType := "input", fieldType := "text", name := "", id := "email_addr",
      placeholder := "you@example.com", required := false, selector := "#email_addr",
      options := [], label := "Email Address" } = "email address you example com email_addr" := by
  decide

/-! ## Helper lemmas -/

/-- The defining case split of nlpMatch, with the let inlined. -/
theorem nlpMatch_eq (t : String) :
    nlpMatch t =
      match firstVocabMatch (tokenize t) FIELD_PATTERNS with
      | none => (none, 0)
      | some (fld, n) =>
        (some fld, minQ (mkRat n (tokenize t).length) 1 * mkRat 95 100) := rfl

/-- When _nlp_match reports no profile field, its score is 0. -/
theorem nlpMatch_none (t : String) (s : ℚ) (h : nlpMatch t = (none, s)) : s = 0 := by
  rw [nlpMatch_eq] at h
  rcases hv : firstVocabMatch (tokenize t) FIELD_PATTERNS with _ | ⟨fld, n⟩ <;>
    rw [hv] at h <;> simp_all

/-- A concrete always-succeeding page oracle, for witnesses. -/
def pgAllOk : PageModel :=
  { waitVisible := fun _ => true, fillOk := fun _ => true, typeOk := fun _ => true,
    selValueOk := fun _ _ => true, selLabelOk := fun _ _ => true }

/-- A field whose only text is the label "email". -/
def fldEmail : FormField :=
  { elementType := "input", fieldType := "text", name := "", id := "",
    label := "email", placeholder := "", required := false, selector := "#e",
    options := [] }

/-- A field whose text normalizes to the empty string. -/
def fldPunct : FormField :=
  { elementType := "input", fieldType := "text", name := "", id := "",
    label := "!!", placeholder := "??", required := false, selector := "#p",
    options := [] }

/-! ## Claims -/

/-- C1: for every descriptor with non-empty normalized text (and the
semantic engine loaded, as the spec's matchField contract presupposes),
match_field returns the semantic result exactly when its score reaches
MIN_FIELD_MATCH_SCORE, and otherwise returns the substring fallback's
result unconditionally, even below the threshold. -/
theorem spec_C1 (f : FormField) (h : extractFieldText f ≠ "") :
    matchField true f =
      if MIN_FIELD_MATCH_SCORE ≤ (nlpMatch (extractFieldText f)).2 then
        nlpMatch (extractFieldText f)
      else patternMatch (extractFieldText f) := by
  unfold matchField matchFieldWith
  simp only [h, if_false, if_true, reduceIte]
  rcases hm : nlpMatch (extractFieldText f) with ⟨pf, s⟩
  cases pf with
  | none =>
    have hs : s = 0 := nlpMatch_none _ _ hm
    subst hs
    rw [if_neg (by decide : ¬ MIN_FIELD_MATCH_SCORE ≤ (0 : ℚ))]
  | some a => rfl

/-- C1 witness: the label "email" scores 0.95 ≥ 0.6 and the semantic result
is returned. -/
theorem spec_C1_witness :
    extractFieldText fldEmail ≠ "" ∧
      matchField true fldEmail = (some "email", mkRat 19 20) := by
  refine ⟨by decide, ?_⟩
  rw [spec_C1 fldEmail (by decide)]
  decide

/-- C3: a descriptor whose combined, normalized text is empty yields
(none, 0.0) without invoking either strategy (the result is the same for
arbitrary strategy functions and engine availability). -/
theorem spec_C3 (sem pat : String → Option String × ℚ) (nlpLoaded : Bool)
    (f : FormField) (h : extractFieldText f = "") :
    matchFieldWith sem pat nlpLoaded f = (none, 0) := by
  unfold matchFieldWith
  simp [h]

/-- C3 witness: a punctuation-only field normalizes to "" and returns
(none, 0.0) under the real strategies. -/
theorem spec_C3_witness :
    extractFieldText fldPunct = "" ∧
      matchFieldWith nlpMatch patternMatch true fldPunct = (none, 0) :=
  ⟨by decide, spec_C3 nlpMatch patternMatch true fldPunct (by decide)⟩

/-- minQ is bounded by its second argument. -/
theorem minQ_le_right (a b : ℚ) : minQ a b ≤ b := by
  unfold minQ
  split
  · assumption
  · exact le_refl b

/-- minQ of anything with 1 is at most 1. -/
theorem minQ_le_one (a : ℚ) : minQ a 1 ≤ 1 := minQ_le_right a 1

/-- A Bool-level prefix gives the length inequality. -/
theorem isPrefixOf_length {α : Type} [DecidableEq α] (p l : List α)
    (h : p.isPrefixOf l = true) : p.length ≤ l.length := by
  induction p generalizing l with
  | nil => simp
  | cons a p ih =>
    cases l with
    | nil => simp [List.isPrefixOf] at h
    | cons b l =>
      simp only [List.isPrefixOf, Bool.and_eq_true, beq_iff_eq] at h
      simpa using ih l h.2

/-- A contiguous segment is no longer than its host list. -/
theorem containsSeg_length {α : Type} [DecidableEq α] (p l : List α)
    (h : containsSeg p l = true) : p.length ≤ l.length := by
  induction l with
  | nil =>
    unfold containsSeg at h
    simp only [List.isEmpty_iff] at h
    simp [h]
  | cons a l ih =>
    unfold containsSeg at h
    rcases Bool.or_eq_true_iff.mp h with hp | hs
    · exact isPrefixOf_length _ _ hp
    · exact le_trans (ih hs) (by simp)

/-- The token count returned by findPhraseTokens is bounded by the document
token count. -/
theorem findPhraseTokens_le (docToks : List String) (ps : List String) (n : Nat)
    (h : findPhraseTokens docToks ps = some n) : n ≤ docToks.length := by
  induction ps with
  | nil => simp [findPhraseTokens] at h
  | cons p ps ih =>
    unfold findPhraseTokens at h
    split at h
    · rename_i hc
      rw [Bool.and_eq_true] at hc
      have hlen := containsSeg_length _ _ hc.2
      cases h
      exact hlen
    · exact ih h

/-- The span length of the first vocabulary match is bounded by the document
token count. -/
theorem firstVocabMatch_le (docToks : List String)
    (l : List (String × List String)) (fld : String) (n : Nat)
    (h : firstVocabMatch docToks l = some (fld, n)) : n ≤ docToks.length := by
  induction l with
  | nil => simp [firstVocabMatch] at h
  | cons e l ih =>
    unfold firstVocabMatch at h
    rcases e with ⟨f, ps⟩
    rcases hf : findPhraseTokens docToks ps with _ | m <;> rw [hf] at h
    · exact ih h
    · cases h
      exact findPhraseTokens_le _ _ _ hf

/-- The invariant maintained by _pattern_match's running best: either still
the initial (None, 0.0), or a recorded vocabulary phrase that occurs as a
substring, with the capped coverage score. -/
def PatInv (t : String) (r : Option String × ℚ) : Prop :=
  r = (none, 0) ∨
    ∃ fld phrases phr, (fld, phrases) ∈ FIELD_PATTERNS ∧ phr ∈ phrases ∧
      strContains t phr = true ∧ r.1 = some fld ∧
      r.2 = minQ (mkRat phr.length t.length) (mkRat 9 10)

/-- The inner phrase loop of patternStep preserves the invariant. -/
theorem patternFold_inv (t fld : String) (allPs : List String)
    (hfld : (fld, allPs) ∈ FIELD_PATTERNS) (ps : List String)
    (hps : ∀ p ∈ ps, p ∈ allPs) (acc : Option String × ℚ) (hacc : PatInv t acc) :
    PatInv t (ps.foldl
      (fun a pat =>
        if strContains t pat then
          let score := minQ (mkRat pat.length t.length) (mkRat 9 10)
          if score > a.2 then (some fld, score) else a
        else a) acc) := by
  induction ps generalizing acc with
  | nil => exact hacc
  | cons p ps ih =>
    rw [List.foldl_cons]
    refine ih (fun q hq => hps q (List.mem_cons_of_mem p hq)) _ ?_
    by_cases hc : strContains t p
    · simp only [hc, if_true, reduceIte]
      split
      · exact Or.inr ⟨fld, allPs, p, hfld, hps p (List.mem_cons_self p ps), hc, rfl, rfl⟩
      · exact hacc
    · simp only [hc, if_false, Bool.false_eq_true, reduceIte]
      exact hacc

/-- The vocabulary fold of _pattern_match preserves the invariant. -/
theorem patternVocab_inv (t : String) (l : List (String × List String))
    (hl : ∀ e ∈ l, e ∈ FIELD_PATTERNS) (acc : Option String × ℚ)
    (hacc : PatInv t acc) : PatInv t (l.foldl (patternStep t) acc) := by
  induction l generalizing acc with
  | nil => exact hacc
  | cons e l ih =>
    rw [List.foldl_cons]
    refine ih (fun q hq => hl q (List.mem_cons_of_mem e hq)) _ ?_
    rcases e with ⟨fld, ps⟩
    exact patternFold_inv t fld ps (hl (fld, ps) (List.mem_cons_self _ _)) ps
      (fun p hp => hp) acc hacc

/-- The invariant holds of _pattern_match's final result. -/
theorem patternMatch_inv (t : String) : PatInv t (patternMatch t) := by
  unfold patternMatch
  exact patternVocab_inv t FIELD_PATTERNS (fun e he => he) (none, 0) (Or.inl rfl)

/-- The fallback score never exceeds 0.9. -/
theorem patternMatch_le (t : String) : (patternMatch t).2 ≤ mkRat 9 10 := by
  rcases patternMatch_inv t with h | ⟨fld, phrases, phr, _, _, _, _, h2⟩
  · rw [h]
    decide
  · rw [h2]
    exact minQ_le_right _ _

/-- The semantic score never exceeds 0.95. -/
theorem nlpMatch_le (t : String) : (nlpMatch t).2 ≤ mkRat 95 100 := by
  rw [nlpMatch_eq]
  rcases hv : firstVocabMatch (tokenize t) FIELD_PATTERNS with _ | ⟨fld, n⟩
  · exact (by decide : (0 : ℚ) ≤ mkRat 95 100)
  · have h1 : minQ (mkRat n (tokenize t).length) 1 ≤ 1 := minQ_le_one _
    have h95 : (0 : ℚ) ≤ mkRat 95 100 := by decide
    have := mul_le_mul_of_nonneg_right h1 h95
    rw [one_mul] at this
    exact this

/-- The semantic score is exactly min(matchTokens / totalTokens, 1) * 0.95
for a token count bounded by the document length (0 when no entry matches). -/
theorem nlpMatch_formula (t : String) :
    ∃ k : Nat, k ≤ (tokenize t).length ∧
      (nlpMatch t).2 = minQ (mkRat k (tokenize t).length) 1 * mkRat 95 100 := by
  rcases hv : firstVocabMatch (tokenize t) FIELD_PATTERNS with _ | ⟨fld, n⟩
  · refine ⟨0, Nat.zero_le _, ?_⟩
    have hz : ∀ L : Nat, minQ (mkRat (((0 : Nat) : Int)) L) 1 * mkRat 95 100 = 0 := by
      intro L
      have h0 : mkRat (((0 : Nat) : Int)) L = 0 := by
        rw [Rat.mkRat_eq_div]
        simp
      rw [h0]
      decide
    rw [nlpMatch_eq, hv]
    exact (hz ((tokenize t).length)).symm
  · exact ⟨n, firstVocabMatch_le _ _ _ _ hv, by rw [nlpMatch_eq, hv]⟩

/-- C2: the semantic confidence is min(matchTokens / totalTokens, 1) * 0.95,
hence at most 0.95; the fallback score is min(len(phrase) / len(text), 0.9)
for the winning vocabulary phrase, hence at most 0.9. -/
theorem spec_C2 (t : String) :
    (nlpMatch t).2 ≤ mkRat 95 100 ∧
    (patternMatch t).2 ≤ mkRat 9 10 ∧
    (∃ k : Nat, k ≤ (tokenize t).length ∧
      (nlpMatch t).2 = minQ (mkRat k (tokenize t).length) 1 * mkRat 95 100) ∧
    (patternMatch t = (none, 0) ∨
      ∃ fld phrases phr, (fld, phrases) ∈ FIELD_PATTERNS ∧ phr ∈ phrases ∧
        strContains t phr = true ∧ (patternMatch t).1 = some fld ∧
        (patternMatch t).2 = minQ (mkRat phr.length t.length) (mkRat 9 10)) :=
  ⟨nlpMatch_le t, patternMatch_le t, nlpMatch_formula t, patternMatch_inv t⟩

/-- C5: a falsy value short-circuits fill_field to failure with no page
interaction at all, for every page, descriptor and force flag. -/
theorem spec_C5 (pg : PageModel) (f : FormField) (v : PyVal) (force : Bool)
    (h : v.falsy = true) : fillField pg f v force = (false, []) := by
  unfold fillField
  simp [h]

/-- C5 witness: filling the email field with None under force on an
all-succeeding page still fails with an empty interaction trace. -/
theorem spec_C5_witness : fillField pgAllOk fldEmail PyVal.vNone true = (false, []) :=
  spec_C5 pgAllOk fldEmail PyVal.vNone true (by decide)

/-- Inserting a key not present in the dict appends it. -/
theorem dictInsert_of_not_mem {κ β : Type} [DecidableEq κ] (m : List (κ × β))
    (k : κ) (v : β) (h : m.any (fun p => p.1 = k) = false) :
    dictInsert m k v = m ++ [(k, v)] := by
  unfold dictInsert
  simp [h]

/-- The match_fields loop over pairwise-distinct descriptors appends one
entry per descriptor. -/
theorem matchFieldsAux (b : Bool) (fs : List FormField)
    (acc : List (FormField × (Option String × ℚ))) (hnd : fs.Nodup)
    (hacc : ∀ f ∈ fs, acc.any (fun p => p.1 = f) = false) :
    fs.foldl (fun m f => dictInsert m f (matchField b f)) acc =
      acc ++ fs.map (fun f => (f, matchField b f)) := by
  induction fs generalizing acc with
  | nil => simp
  | cons f fs ih =>
    rw [List.foldl_cons, dictInsert_of_not_mem _ _ _ (hacc f (List.mem_cons_self f fs))]
    have hacc' : ∀ g ∈ fs,
        (acc ++ [(f, matchField b f)]).any (fun p => p.1 = g) = false := by
      intro g hg
      rw [List.any_append]
      have h1 := hacc g (List.mem_cons_of_mem f hg)
      have hne : f ≠ g := fun he => (List.nodup_cons.mp hnd).1 (he ▸ hg)
      simp [h1, hne]
    rw [ih _ (List.Nodup.of_cons hnd) hacc']
    simp

/-- C4: match_fields returns exactly one entry per (identity-distinct)
input descriptor, in order, and each entry is match_field applied to that
descriptor alone. -/
theorem spec_C4 (b : Bool) (fs : List FormField) (h : fs.Nodup) :
    matchFields b fs = fs.map (fun f => (f, matchField b f)) ∧
      (matchFields b fs).length = fs.length := by
  have he := matchFieldsAux b fs [] h (fun f _ => rfl)
  unfold matchFields
  rw [he]
  simp

/-- C4 witness at a two-descriptor list. -/
theorem spec_C4_witness :
    matchFields true [fldEmail, fldPunct] =
      [(fldEmail, matchField true fldEmail), (fldPunct, matchField true fldPunct)] ∧
      (matchFields true [fldEmail, fldPunct]).length = 2 :=
  spec_C4 true [fldEmail, fldPunct] (by decide)

/-- The FieldMatcher singleton before any initialization. -/
def freshMatcher : MatcherState := ⟨false, false, 0⟩

/-- C6 counterexample: after a failed engine load, a second match_field call
attempts the load again (two attempts happen in one process), and a failed
initialize is not idempotent; a third call whose load succeeds even switches
back to the semantic engine, so the fallback is not permanent either. -/
theorem spec_C6_cex :
    ((matchFieldStep false ((matchFieldStep false freshMatcher fldEmail).1)
        fldEmail).1).loadAttempts = 2 ∧
      (matcherInit false (matcherInit false freshMatcher)).loadAttempts = 2 ∧
      ((matchFieldStep true ((matchFieldStep false freshMatcher fldEmail).1)
        fldEmail).1).nlpLoaded = true := by
  refine ⟨?_, ?_, ?_⟩ <;> rfl

/-- C6 amended: initialize is a no-op once a load has succeeded
(_initialized set), but a failed load leaves the matcher uninitialized:
every subsequent match_field call re-attempts the engine load, and the
call that saw the failure falls back to substring matching. -/
theorem spec_C6 :
    (∀ (s : MatcherState) (o : Bool), s.isInit = true → matcherInit o s = s) ∧
    (∀ (s : MatcherState) (o : Bool) (f : FormField), s.isInit = false →
      ((matchFieldStep o s f).1).loadAttempts = s.loadAttempts + 1) ∧
    (∀ (s : MatcherState) (f : FormField), s.isInit = false → s.nlpLoaded = false →
      (matchFieldStep false s f).2 = matchField false f ∧
        ((matchFieldStep false s f).1).isInit = false) := by
  refine ⟨?_, ?_, ?_⟩
  · intro s o h
    unfold matcherInit
    simp [h]
  · intro s o f h
    unfold matchFieldStep matcherInit
    cases o <;> simp [h]
  · intro s f h1 h2
    unfold matchFieldStep matcherInit
    simp [h1, h2]

/-- C6 amended witness. -/
theorem spec_C6_witness :
    matcherInit false ⟨true, true, 1⟩ = ⟨true, true, 1⟩ ∧
      ((matchFieldStep false freshMatcher fldEmail).1).loadAttempts = 1 ∧
      ((matchFieldStep false freshMatcher fldEmail).2 = matchField false fldEmail ∧
        ((matchFieldStep false freshMatcher fldEmail).1).isInit = false) :=
  ⟨spec_C6.1 ⟨true, true, 1⟩ false rfl,
   spec_C6.2.1 freshMatcher false fldEmail rfl,
   spec_C6.2.2 freshMatcher fldEmail rfl rfl⟩

/-- C7 counterexample: "notaurl" fails the repository's own URL validator,
yet navigate_to attempts page.goto on it (and here even reports success);
no validation error of any kind precedes the navigation attempt. -/
theorem spec_C7_cex :
    is_valid_url "notaurl" = false ∧
      navigate_to true true "notaurl" =
        (true, [NavAction.goto "notaurl", NavAction.waitNetworkIdle]) := by
  constructor <;> rfl

/-- C7 amended: navigate_to performs no URL validation at all: for every
input URL, valid or malformed, its first page interaction is page.goto on
that URL, and failures are reported as a boolean, never as a raised
validation error. -/
theorem spec_C7 (gotoOk idleOk : Bool) (url : String) :
    ((navigate_to gotoOk idleOk url).2).head? = some (NavAction.goto url) := by
  unfold navigate_to
  cases gotoOk <;> cases idleOk <;> rfl

/-- Appending strings appends their character data. -/
theorem append_data (p s : String) : (p ++ s).data = p.data ++ s.data := by
  obtain ⟨pd⟩ := p
  obtain ⟨sd⟩ := s
  rfl

/-- A string with non-empty character data is not the empty string. -/
theorem ne_empty_of_data (s : String) (h : s.data ≠ []) : s ≠ "" :=
  fun he => h (congrArg String.data he)

/-- Every branch of the selector priority chain yields a non-empty string,
for the non-empty tag names used by the detector. -/
theorem mkSelector_ne_empty (tag elemId elemName : String) (idx : Nat)
    (htag : tag.data ≠ []) : mkSelector tag elemId elemName idx ≠ "" := by
  unfold mkSelector
  split
  · apply ne_empty_of_data
    rw [append_data]
    simp
  · split
    · apply ne_empty_of_data
      rw [append_data, append_data, append_data]
      simp [htag]
    · apply ne_empty_of_data
      rw [append_data, append_data]
      simp [htag]

/-- Element i of a detection pass is the builder applied to element i of
the input, at enumeration index (start + i). -/
theorem detectAux_get? (mk : RawElem → Nat → FormField) (es : List RawElem)
    (idx i : Nat) :
    (detectAux mk idx es).get? i = (es.get? i).map (fun e => mk e (idx + i)) := by
  induction es generalizing idx i with
  | nil => simp [detectAux]
  | cons e es ih =>
    cases i with
    | zero => simp [detectAux]
    | succ n =>
      simp only [detectAux, List.get?_cons_succ]
      rw [ih (idx + 1) n]
      have harith : idx + 1 + n = idx + (n + 1) := by omega
      rw [harith]

/-- A detection pass preserves the element count. -/
theorem detectAux_length (mk : RawElem → Nat → FormField) (es : List RawElem)
    (idx : Nat) : (detectAux mk idx es).length = es.length := by
  induction es generalizing idx with
  | nil => rfl
  | cons e es ih => simp [detectAux, ih]

/-- Every descriptor of a detection pass comes from the field builder. -/
theorem detectAux_mem (mk : RawElem → Nat → FormField) (es : List RawElem)
    (idx : Nat) (f : FormField) (h : f ∈ detectAux mk idx es) :
    ∃ e i, e ∈ es ∧ f = mk e i := by
  induction es generalizing idx with
  | nil => simp [detectAux] at h
  | cons e es ih =>
    rcases List.mem_cons.mp h with h0 | h1
    · exact ⟨e, idx, List.mem_cons_self e es, h0⟩
    · rcases ih (idx + 1) h1 with ⟨e', i', he', hf⟩
      exact ⟨e', i', List.mem_cons_of_mem e he', hf⟩

/-- C8: every detected descriptor's selector is non-empty and is computed
by the fixed priority chain (#id, else tag[name="name"], else
tag:nth-of-type(k) with k the 1-based occurrence index among the same-tag
elements encountered in the pass). -/
theorem spec_C8 (es : List RawElem) (i : Nat) :
    (detectInputFields es).get? i = (es.get? i).map (fun e => mkInputField e i) ∧
    (detectTextareaFields es).get? i = (es.get? i).map (fun e => mkTextareaField e i) ∧
    (detectSelectFields es).get? i = (es.get? i).map (fun e => mkSelectField e i) ∧
    (detectInputFields es).length = es.length ∧
    (detectTextareaFields es).length = es.length ∧
    (detectSelectFields es).length = es.length ∧
    (∀ f, f ∈ detectInputFields es ++ detectTextareaFields es ++ detectSelectFields es →
      f.selector ≠ "") ∧
    (∀ (e : RawElem) (k : Nat),
      (mkInputField e k).selector =
        (if e.id ≠ "" then "#" ++ e.id
         else if e.name ≠ "" then "input[name=\"" ++ e.name ++ "\"]"
         else "input:nth-of-type(" ++ toString (k + 1) ++ ")") ∧
      (mkTextareaField e k).selector =
        (if e.id ≠ "" then "#" ++ e.id
         else if e.name ≠ "" then "textarea[name=\"" ++ e.name ++ "\"]"
         else "textarea:nth-of-type(" ++ toString (k + 1) ++ ")") ∧
      (mkSelectField e k).selector =
        (if e.id ≠ "" then "#" ++ e.id
         else if e.name ≠ "" then "select[name=\"" ++ e.name ++ "\"]"
         else "select:nth-of-type(" ++ toString (k + 1) ++ ")")) := by
  refine ⟨by simpa using detectAux_get? mkInputField es 0 i,
    by simpa using detectAux_get? mkTextareaField es 0 i,
    by simpa using detectAux_get? mkSelectField es 0 i,
    detectAux_length _ es 0, detectAux_length _ es 0, detectAux_length _ es 0,
    ?_, ?_⟩
  · intro f hf
    rcases List.mem_append.mp hf with hf' | hsel
    · rcases List.mem_append.mp hf' with hin | hta
      · rcases detectAux_mem _ _ _ _ hin with ⟨e, k, _, rfl⟩
        exact mkSelector_ne_empty "input" e.id e.name k (by decide)
      · rcases detectAux_mem _ _ _ _ hta with ⟨e, k, _, rfl⟩
        exact mkSelector_ne_empty "textarea" e.id e.name k (by decide)
    · rcases detectAux_mem _ _ _ _ hsel with ⟨e, k, _, rfl⟩
      exact mkSelector_ne_empty "select" e.id e.name k (by decide)
  · intro e k
    refine ⟨?_, ?_, ?_⟩ <;>
      · show mkSelector _ e.id e.name k = _
        unfold mkSelector
        split
        · rfl
        · split <;> rfl

/-- An element with neither id nor name, as in the C8 witness. -/
def elemBare : RawElem :=
  { id := "", name := "", label := "Email", placeholder := "", fieldType := "text",
    required := false, options := [] }

/-- C8 witness: detection of a single attribute-less input yields the
positional selector input:nth-of-type(1), which is non-empty. -/
theorem spec_C8_witness :
    (detectInputFields [elemBare]).get? 0 = some (mkInputField elemBare 0) ∧
      (mkInputField elemBare 0).selector ≠ "" ∧
      (mkInputField elemBare 0).selector = "input:nth-of-type(1)" := by
  have h := spec_C8 [elemBare] 0
  refine ⟨?_, ?_, ?_⟩
  · rw [h.1]
    rfl
  · exact h.2.2.2.2.2.2.1 (mkInputField elemBare 0) (by decide)
  · rw [(h.2.2.2.2.2.2.2 elemBare 0).1]
    rfl

/-- Python dict lookup d.get(k) on the association-list model. -/
def dictFind {κ β : Type} [DecidableEq κ] : List (κ × β) → κ → Option β
  | [], _ => none
  | p :: ps, k => if p.1 = k then some p.2 else dictFind ps k

/-- Lookup distributes over append, first list winning. -/
theorem dictFind_append {κ β : Type} [DecidableEq κ] (a b : List (κ × β)) (k : κ) :
    dictFind (a ++ b) k =
      match dictFind a k with
      | some v => some v
      | none => dictFind b k := by
  induction a with
  | nil => rfl
  | cons p ps ih =>
    by_cases hp : p.1 = k
    · simp [dictFind, hp]
    · simp [dictFind, hp, ih]

/-- A key that no entry carries is not found. -/
theorem dictFind_of_any_false {κ β : Type} [DecidableEq κ] (m : List (κ × β))
    (k : κ) (h : m.any (fun p => p.1 = k) = false) : dictFind m k = none := by
  induction m with
  | nil => rfl
  | cons p ps ih =>
    simp only [List.any_cons, Bool.or_eq_false_iff] at h
    have hne : p.1 ≠ k := by simpa using h.1
    simp [dictFind, hne, ih h.2]

/-- Updating every entry holding k lets the lookup of k return the new value. -/
theorem dictFind_map_update_self {κ β : Type} [DecidableEq κ] (m : List (κ × β))
    (k : κ) (v : β) (h : m.any (fun p => p.1 = k) = true) :
    dictFind (m.map (fun p => if p.1 = k then (k, v) else p)) k = some v := by
  induction m with
  | nil => simp at h
  | cons p ps ih =>
    rw [List.map_cons]
    by_cases hp : p.1 = k
    · rw [if_pos hp]
      simp [dictFind]
    · rw [if_neg hp]
      have hps : ps.any (fun p => p.1 = k) = true := by
        simp only [List.any_cons] at h
        rcases Bool.or_eq_true_iff.mp h with h' | h'
        · exact absurd (of_decide_eq_true h') hp
        · exact h'
      simp [dictFind, hp, ih hps]

/-- Updating the entries holding k leaves other lookups unchanged. -/
theorem dictFind_map_update_ne {κ β : Type} [DecidableEq κ] (m : List (κ × β))
    (k : κ) (v : β) (k' : κ) (hne : k' ≠ k) :
    dictFind (m.map (fun p => if p.1 = k then (k, v) else p)) k' = dictFind m k' := by
  induction m with
  | nil => rfl
  | cons p ps ih =>
    rw [List.map_cons]
    by_cases hp : p.1 = k
    · rw [if_pos hp]
      have hkk : k ≠ k' := fun he => hne he.symm
      simp [dictFind, hkk, hp, ih]
    · rw [if_neg hp]
      simp [dictFind, ih]

/-- The key sequence is unchanged by an in-place update. -/
theorem keys_map_update {κ β : Type} [DecidableEq κ] (m : List (κ × β)) (k : κ)
    (v : β) :
    (m.map (fun p => if p.1 = k then (k, v) else p)).map Prod.fst =
      m.map Prod.fst := by
  induction m with
  | nil => rfl
  | cons p ps ih =>
    by_cases hp : p.1 = k
    · simp [hp, ih]
    · simp [hp, ih]

/-- dict assignment finds the assigned value. -/
theorem dictFind_insert_self {κ β : Type} [DecidableEq κ] (m : List (κ × β))
    (k : κ) (v : β) : dictFind (dictInsert m k v) k = some v := by
  unfold dictInsert
  split
  · exact dictFind_map_update_self _ _ _ (by assumption)
  · rename_i hany
    have hany' : m.any (fun p => p.1 = k) = false := by
      cases hx : m.any (fun p => p.1 = k)
      · rfl
      · exact absurd hx hany
    rw [dictFind_append, dictFind_of_any_false _ _ hany']
    simp [dictFind]

/-- dict assignment leaves other keys' lookups unchanged. -/
theorem dictFind_insert_ne {κ β : Type} [DecidableEq κ] (m : List (κ × β))
    (k : κ) (v : β) (k' : κ) (hne : k' ≠ k) :
    dictFind (dictInsert m k v) k' = dictFind m k' := by
  unfold dictInsert
  split
  · exact dictFind_map_update_ne _ _ _ _ hne
  · rw [dictFind_append]
    cases hm : dictFind m k' with
    | none =>
      have hkk : k ≠ k' := fun he => hne he.symm
      simp [dictFind, hkk]
    | some b => rfl

/-- dict assignment keeps the key sequence duplicate-free. -/
theorem dictInsert_keys_nodup {κ β : Type} [DecidableEq κ] (m : List (κ × β))
    (k : κ) (v : β) (h : (m.map Prod.fst).Nodup) :
    ((dictInsert m k v).map Prod.fst).Nodup := by
  unfold dictInsert
  split
  · rw [keys_map_update]
    exact h
  · rename_i hany
    have hany' : m.any (fun p => p.1 = k) = false := by
      cases hx : m.any (fun p => p.1 = k)
      · rfl
      · exact absurd hx hany
    have hk : k ∉ m.map Prod.fst := by
      intro hmem
      rcases List.mem_map.mp hmem with ⟨p, hp, hfst⟩
      have hx : m.any (fun q => q.1 = k) = true :=
        List.any_eq_true.mpr ⟨p, hp, by simp [hfst]⟩
      rw [hx] at hany'
      cases hany'
    rw [List.map_append, List.nodup_append]
    refine ⟨h, by simp, ?_⟩
    intro a ha hb
    simp only [List.map_cons, List.map_nil, List.mem_singleton] at hb
    exact hk (hb ▸ ha)

/-- The keys after a dict assignment are the old keys plus the new key. -/
theorem dictInsert_keys_mem {κ β : Type} [DecidableEq κ] (m : List (κ × β))
    (k : κ) (v : β) (s : κ) :
    s ∈ (dictInsert m k v).map Prod.fst ↔ s ∈ m.map Prod.fst ∨ s = k := by
  unfold dictInsert
  split
  · rename_i hany
    rw [keys_map_update]
    constructor
    · exact Or.inl
    · rintro (hin | rfl)
      · exact hin
      · rcases List.any_eq_true.mp hany with ⟨p, hp, hpk⟩
        have hps : p.1 = s := by simpa using hpk
        exact hps ▸ List.mem_map_of_mem Prod.fst hp
  · simp [List.map_append]

/-- The fill_form loop from an arbitrary starting dict. -/
def fillFormFrom (pg : PageModel) (force : Bool) (acc : List (String × Bool))
    (ms : List (FormField × PyVal)) : List (String × Bool) :=
  ms.foldl
    (fun res p => dictInsert res p.1.selector (fillField pg p.1 p.2 force).1) acc

/-- fill_form is the loop started from the empty dict. -/
theorem fillForm_eq_from (pg : PageModel) (force : Bool)
    (ms : List (FormField × PyVal)) :
    fillForm pg ms force = fillFormFrom pg force [] ms := rfl

/-- getLast? of a non-empty list is never none. -/
theorem getLast?_cons_isSome {α : Type} (a : α) (l : List α) :
    (a :: l).getLast? ≠ none := by
  induction l generalizing a with
  | nil => simp
  | cons b l ih =>
    rw [List.getLast?_cons_cons]
    exact ih b

/-- Invariant of the fill_form loop: keys stay duplicate-free, the keys are
the starting keys plus the processed selectors, and each selector's entry
holds the fill outcome of the last processed pair carrying it. -/
theorem fillFormAux (pg : PageModel) (force : Bool) (ms : List (FormField × PyVal)) :
    ∀ acc : List (String × Bool), (acc.map Prod.fst).Nodup →
      ((fillFormFrom pg force acc ms).map Prod.fst).Nodup ∧
      (∀ s, s ∈ (fillFormFrom pg force acc ms).map Prod.fst ↔
        s ∈ acc.map Prod.fst ∨ s ∈ ms.map (fun p => p.1.selector)) ∧
      (∀ s, dictFind (fillFormFrom pg force acc ms) s =
        match (ms.filter (fun p => p.1.selector = s)).getLast? with
        | some q => some (fillField pg q.1 q.2 force).1
        | none => dictFind acc s) := by
  induction ms with
  | nil =>
    intro acc hnd
    exact ⟨hnd, fun s => by simp [fillFormFrom], fun s => by simp [fillFormFrom]⟩
  | cons p ms ih =>
    intro acc hnd
    have hnd' := dictInsert_keys_nodup acc p.1.selector
      (fillField pg p.1 p.2 force).1 hnd
    obtain ⟨ih1, ih2, ih3⟩ :=
      ih (dictInsert acc p.1.selector (fillField pg p.1 p.2 force).1) hnd'
    have hstep : fillFormFrom pg force acc (p :: ms) =
        fillFormFrom pg force
          (dictInsert acc p.1.selector (fillField pg p.1 p.2 force).1) ms := rfl
    refine ⟨hstep ▸ ih1, ?_, ?_⟩
    · intro s
      rw [hstep, ih2 s, dictInsert_keys_mem]
      simp only [List.map_cons, List.mem_cons]
      tauto
    · intro s
      rw [hstep, ih3 s]
      by_cases hs : p.1.selector = s
      · subst hs
        rw [List.filter_cons_of_pos (by simp)]
        cases hfl : ms.filter (fun q => q.1.selector = p.1.selector) with
        | nil =>
          simpa using dictFind_insert_self acc p.1.selector
            (fillField pg p.1 p.2 force).1
        | cons q qs =>
          rw [List.getLast?_cons_cons]
          cases hq : (q :: qs).getLast? with
          | none => exact absurd hq (getLast?_cons_isSome q qs)
          | some r => rfl
      · rw [List.filter_cons_of_neg (by simp [hs])]
        cases hfl : (ms.filter (fun q => q.1.selector = s)).getLast? with
        | none =>
          exact dictFind_insert_ne acc p.1.selector _ s (fun he => hs he.symm)
        | some q => rfl

/-- C10: fill_form's result is keyed by selector: duplicate-free keys, one
entry for exactly the selectors occurring among the inputs, and each entry
holds the outcome of the last input pair with that selector (later pairs
overwrite earlier ones), so the dict can be smaller than the input list. -/
theorem spec_C10 (pg : PageModel) (force : Bool) (ms : List (FormField × PyVal)) :
    ((fillForm pg ms force).map Prod.fst).Nodup ∧
    (∀ s, s ∈ (fillForm pg ms force).map Prod.fst ↔
      s ∈ ms.map (fun p => p.1.selector)) ∧
    (∀ s, dictFind (fillForm pg ms force) s =
      ((ms.filter (fun p => p.1.selector = s)).getLast?).map
        (fun q => (fillField pg q.1 q.2 force).1)) := by
  obtain ⟨h1, h2, h3⟩ := fillFormAux pg force ms [] (by simp)
  rw [fillForm_eq_from]
  refine ⟨h1, fun s => ?_, fun s => ?_⟩
  · rw [h2 s]
    simp
  · rw [h3 s]
    cases hfl : (ms.filter (fun p => p.1.selector = s)).getLast? <;> simp [dictFind]

end ApplyMate
